import Mathlib

/-!
Verification of the Lake Tahoe hazard-warning data-retrieval pipeline.

Shallow embedding of the two data-retrieval modules:
* `nws.py` — interval parsing, hour rounding and hourly expansion of
  gridded-forecast samples;
* `aws.py` — merge of buoy/shore-station samples, gap trimming, the
  outlier cleaner and the wind-vector decomposition.

Numeric sensor values are modelled as rationals (the Python floats are
idealised as exact arithmetic); timestamps as integers (hours since an
epoch) or, where the code manipulates calendar fields, as a record of
those fields.  Fallible code returns `Option`/`Except`.
-/

set_option maxRecDepth 10000

namespace LTHWS

/-! ### nws.py -/

/-- The fields of a Python `datetime.datetime` (UTC) that
`round_to_nearest_hour` reads or writes. -/
structure PyDateTime where
  year : Nat
  month : Nat
  day : Nat
  hour : Nat
  minute : Nat
  second : Nat
  microsecond : Nat
deriving DecidableEq, Repr

/-- `round_to_nearest_hour` from `nws.py`.  `date.replace(...)` copies the
datetime, overwriting only the named fields, so the microsecond field is
left as it was; and `replace` validates `0 <= hour <= 23`, so the
round-up branch raises `ValueError` when `date.hour = 23` — modelled by
`none`. -/
def round_to_nearest_hour (d : PyDateTime) : Option PyDateTime :=
  if 30 ≤ d.minute then
    if d.hour + 1 ≤ 23 then
      some { d with hour := d.hour + 1, minute := 0, second := 0 }
    else none
  else
    some { d with minute := 0, second := 0 }

/-- One step of the duration-parsing loop in `parse_interval`: digits are
accumulated left-to-right into `st.2`; a unit letter adds the accumulator
(scaled for `M` and `S` by the source's integer divisors) to the running
hour total `st.1` and resets the accumulator; any other character is
ignored. -/
def durStep (st : Nat × Nat) (c : Char) : Nat × Nat :=
  if c.isDigit then (st.1, 10 * st.2 + (c.toNat - 48))
  else if c = 'H' then (st.1 + st.2, 0)
  else if c = 'M' then (st.1 + st.2 / 60, 0)
  else if c = 'S' then (st.1 + st.2 / 360, 0)
  else st

/-- The duration-to-hours loop of `parse_interval` (`hours`/`integer`
accumulator pair folded over the duration string). -/
def durationHours (dur : List Char) : Nat := (dur.foldl durStep (0, 0)).1

/-- Python's `str.split` for a single-character separator. -/
def splitOnChar (c : Char) : List Char → List (List Char)
  | [] => [[]]
  | a :: rest =>
    if a = c then [] :: splitOnChar c rest
    else
      match splitOnChar c rest with
      | [] => [[a]]
      | h :: t => (a :: h) :: t

/-- Python's `str.split("--")`: left-to-right, non-overlapping. -/
def splitOnDashDash : List Char → List (List Char)
  | [] => [[]]
  | [a] => [[a]]
  | a :: b :: rest =>
    if a = '-' ∧ b = '-' then [] :: splitOnDashDash rest
    else
      match splitOnDashDash (b :: rest) with
      | [] => [[a]]
      | h :: t => (a :: h) :: t

/-- Python's `"--" in interval`. -/
def containsDashDash : List Char → Bool
  | [] => false
  | [_] => false
  | a :: b :: rest => (a = '-' && b = '-') || containsDashDash (b :: rest)

/-- `parse_interval` from `nws.py`, over character lists.  The date part
is returned unparsed (`dateutil.parser.parse` is an external
collaborator, out of scope per the spec).  `none` models the
`ValueError` raised when the two-element unpacking
`date, duration = interval.split(solidus)` fails. -/
def parse_interval (interval : List Char) : Option (List Char × Nat) :=
  if interval.contains '/' then
    match splitOnChar '/' interval with
    | [d, dur] => some (d, durationHours dur)
    | _ => none
  else if containsDashDash interval then
    match splitOnDashDash interval with
    | [d, dur] => some (d, durationHours dur)
    | _ => none
  else
    some (interval, 0)

/-- The expansion loop of `get_model_nws_data`:
`for hour in range(0, duration): model_data[time + timedelta(hours=hour)][j] = value`.
Timestamps are modelled as hours-since-epoch; the result lists the
(timestamp, value) writes the loop performs, in order. -/
def expandSample (time : ℤ) (duration : Nat) (value : ℚ) : List (ℤ × ℚ) :=
  (List.range duration).map fun (hour : Nat) => (time + (hour : ℤ), value)

/-- Decimal value of a digit string, accumulated exactly as the parsing
loop does (`integer = 10 * integer + int(letter)`). -/
def decVal (ds : List Char) : Nat := ds.foldl (fun a c => 10 * a + (c.toNat - 48)) 0

/-- The duration suffix `PT<ds1>H<ds2>M<ds3>S`. -/
def ptString (ds1 ds2 ds3 : List Char) : List Char :=
  'P' :: 'T' :: (ds1 ++ 'H' :: (ds2 ++ 'M' :: (ds3 ++ ['S'])))

/-! ### aws.py — data model and merge (`get_model_historical_data`) -/

/-- The feature list of `get_model_historical_data`, in source order. -/
def features : List String :=
  ["shortwave", "air temp", "atmospheric pressure", "relative humidity",
   "longwave", "wind speed", "wind direction"]

/-- One row of the `historical` defaultdict: a fixed-width list of
optional feature values, positionally indexed like the Python list
(`none` models `np.nan`). -/
abbrev Row := List (Option ℚ)

/-- The defaultdict initializer `[np.nan] * len(features)`. -/
def emptyRow : Row := List.replicate features.length none

/-- `historical[time][features.index(name)] = value`. -/
def setFeature (r : Row) (name : String) (v : ℚ) : Row :=
  r.set (features.indexOf name) (some v)

/-- A raw NASA-buoy JSON sample (fields the code reads, pre-parsed to
numbers; the timestamp as an abstract instant). -/
structure BuoySample where
  tmStamp : ℤ
  airTemp1 : ℚ
  airTemp2 : ℚ
  windDir1 : ℚ
  windDir2 : ℚ
  windSpeed1 : ℚ
  windSpeed2 : ℚ
deriving DecidableEq, Repr

/-- A raw USCG JSON sample. -/
structure UscgSample where
  tmStamp : ℤ
  shortWaveIn : ℚ
  shortWaveOut : ℚ
  bpMbar : ℚ
  rhPercent : ℚ
  longWaveInCorr : ℚ
deriving DecidableEq, Repr

/-- Defaultdict access-and-update: on first touch of a timestamp an
all-`nan` row is created (insertion order preserved), otherwise the
existing row is updated in place. -/
def upsert (hist : List (ℤ × Row)) (t : ℤ) (f : Row → Row) : List (ℤ × Row) :=
  match hist with
  | [] => [(t, f emptyRow)]
  | (t', r) :: rest => if t' = t then (t', f r) :: rest else (t', r) :: upsert rest t f

/-- Processing of one NASA-buoy sample: the two redundant instruments
for wind direction, wind speed and air temperature are averaged, then
written into the row at the sample's timestamp (assignment order as in
the source). -/
def applyBuoy (hist : List (ℤ × Row)) (s : BuoySample) : List (ℤ × Row) :=
  let windDir := (s.windDir1 + s.windDir2) / 2
  let windSpeed := (s.windSpeed1 + s.windSpeed2) / 2
  let airTemp := (s.airTemp1 + s.airTemp2) / 2
  upsert hist s.tmStamp fun r =>
    setFeature (setFeature (setFeature r "air temp" airTemp) "wind speed" windSpeed)
      "wind direction" windDir

/-- Processing of one USCG sample: shortwave = in − out, millibar → Pa
(×100), percent → fraction (÷100), longwave passed through. -/
def applyUscg (hist : List (ℤ × Row)) (s : UscgSample) : List (ℤ × Row) :=
  let shortwave := s.shortWaveIn - s.shortWaveOut
  let pressure := s.bpMbar * 100
  let humidity := s.rhPercent / 100
  let longwave := s.longWaveInCorr
  upsert hist s.tmStamp fun r =>
    setFeature (setFeature (setFeature (setFeature r "shortwave" shortwave)
      "atmospheric pressure" pressure) "relative humidity" humidity) "longwave" longwave

/-- The two sample loops of `get_model_historical_data`: all buoy
samples, then all USCG samples, folded into the `historical` map. -/
def buildHistorical (buoy : List BuoySample) (uscg : List UscgSample) : List (ℤ × Row) :=
  uscg.foldl applyUscg (buoy.foldl applyBuoy [])

/-- `df.isnull().any(axis=1)` for one row (the `time` key of the pair is
never null). -/
def hasNan (r : Row) : Bool := r.any fun c => c.isNone

/-- The boolean null mask `df.isnull().any(axis=1)`, one flag per row. -/
def nanFlags (rows : List (ℤ × Row)) : List Bool := rows.map fun p => hasNan p.2

/-- `[idx for idx, is_nan in enumerate(rows_with_nan) if is_nan]`. -/
def rowsWithNan (rows : List (ℤ × Row)) : List Nat :=
  ((nanFlags rows).enum.filter fun p => p.2).map fun p => p.1

/-- `df.drop(axis=0, index=idxs)`: the dataframe is freshly built, so
its labels are the positions 0,1,2,... and dropping by label removes
exactly those positions. -/
def dropRows (rows : List (ℤ × Row)) (idxs : List Nat) : List (ℤ × Row) :=
  (rows.enum.filter fun p => !(idxs.contains p.1)).map fun p => p.2

/-- The gap-trimming step: drop every row whose index is flagged by the
null mask. -/
def trimNan (rows : List (ℤ × Row)) : List (ℤ × Row) := dropRows rows (rowsWithNan rows)

/-- Insertion step for `df.sort_values(by=['time'])` (timestamps are
dict keys, hence distinct, so any comparison sort agrees with this
insertion sort). -/
def insertByTime (x : ℤ × Row) : List (ℤ × Row) → List (ℤ × Row)
  | [] => [x]
  | y :: ys => if x.1 ≤ y.1 then x :: y :: ys else y :: insertByTime x ys

/-- `df.sort_values(by=['time'], ignore_index=True)`. -/
def sortByTime (rows : List (ℤ × Row)) : List (ℤ × Row) := rows.foldr insertByTime []

/-- A pandas DataFrame with a `time` column and named numeric columns,
stored column-major. -/
structure DataFrame (α : Type) where
  time : List ℤ
  cols : List (String × List α)
deriving DecidableEq, Repr

/-- `df[name]` (first match; column names are unique in this pipeline). -/
def getCol (cols : List (String × List α)) (name : String) : Option (List α) :=
  match cols with
  | [] => none
  | q :: rest => if q.1 = name then some q.2 else getCol rest name

/-- `df[name] = f(df[name])` for an existing column. -/
def mapCol (cols : List (String × List α)) (name : String) (f : List α → List α) :
    List (String × List α) :=
  cols.map fun p => if p.1 = name then (p.1, f p.2) else p

/-- `df[name] = v`: overwrite the column if present, else append it. -/
def setColValue (cols : List (String × List α)) (name : String) (v : List α) :
    List (String × List α) :=
  if cols.any fun p => p.1 = name then
    cols.map fun p => if p.1 = name then (p.1, v) else p
  else
    cols ++ [(name, v)]

/-- `df.drop(name, axis=1)`. -/
def dropCol (cols : List (String × List α)) (name : String) : List (String × List α) :=
  cols.filter fun p => !(p.1 = name)

/-- Extract feature column `i` from the (dense, trimmed) rows; the
default 0 is never consulted after trimming. -/
def colOf (rows : List (ℤ × Row)) (i : Nat) : List ℚ :=
  rows.map fun p => (p.2.getD i none).getD 0

/-- `pd.DataFrame([[time] + values ...], columns=['time'] + features)`:
the `time` column plus one named column per feature, in source order. -/
def toDF (rows : List (ℤ × Row)) : DataFrame ℚ :=
  { time := rows.map fun p => p.1
    cols := features.enum.map fun p => (p.2, colOf rows p.1) }

/-! ### aws.py — the outlier cleaner (`remove_outliers`) -/

/-- Sorted insertion (pandas sorts each window to take its median). -/
def sortedInsert (x : ℚ) : List ℚ → List ℚ
  | [] => [x]
  | y :: ys => if x ≤ y then x :: y :: ys else y :: sortedInsert x ys

/-- Insertion sort of a window. -/
def sortQ (l : List ℚ) : List ℚ := l.foldr sortedInsert []

/-- Median of a window, as pandas computes it: middle element of the
sorted window for odd length, average of the two middle elements for
even length. -/
def median (l : List ℚ) : ℚ :=
  let s := sortQ l
  if s.length % 2 = 1 then s.getD (s.length / 2) 0
  else (s.getD (s.length / 2 - 1) 0 + s.getD (s.length / 2) 0) / 2

/-- The centered rolling window of pandas
`rolling(window=w, center=True, min_periods=1)` at position `i`.
Pandas places the window with `offset = (w - 1) // 2` counted on the
trailing end: the bounds are `end = i + 1 + offset` (exclusive) and
`start = end - w`, i.e. the window covers positions `i - w/2` through
`i + (w-1)/2` (an even window's extra element lies on the past side),
shrunk at the series edges (never padded). -/
def window (w : Nat) (xs : List ℚ) (i : Nat) : List ℚ :=
  let l := i - w / 2
  (xs.drop l).take (i + (w - 1) / 2 + 1 - l)

/-- Apply a window statistic at every position of a column. -/
def rollingApply (g : List ℚ → β) (w : Nat) (xs : List ℚ) : List β :=
  (List.range xs.length).map fun i => g (window w xs i)

/-- Arithmetic mean of a window. -/
def meanQ (l : List ℚ) : ℚ := l.sum / (l.length : ℚ)

/-- `rolling(...).mean()`. -/
def rollingMean (w : Nat) (xs : List ℚ) : List ℚ := rollingApply meanQ w xs

/-- `rolling(...).median()`. -/
def rollingMedian (w : Nat) (xs : List ℚ) : List ℚ := rollingApply median w xs

/-- The sample variance (square of the pandas rolling `std`, which uses
ddof = 1): `none` models the NaN that pandas produces for a
single-element window. -/
def varQ (l : List ℚ) : Option ℚ :=
  if l.length ≤ 1 then none
  else some ((l.map fun x => (x - meanQ l) * (x - meanQ l)).sum / ((l.length : ℚ) - 1))

/-- `rolling(...).std()` squared, per position. -/
def rollingVar (w : Nat) (xs : List ℚ) : List (Option ℚ) := rollingApply varQ w xs

/-- `std[0] = 0`: on a nonempty series this overwrites the first entry;
on the EMPTY series (zero-row table) pandas setitem with the missing
label 0 enlarges the series to length 1. -/
def forceStdZero (var : List (Option ℚ)) : List (Option ℚ) :=
  match var with
  | [] => [some 0]
  | l => l.set 0 (some 0)

/-- The boolean of pandas `lo < x` where `lo = mean - 3*std` and
`std = sqrt v`: encoded over ℚ by squaring (for `0 ≤ v`,
`m - 3*sqrt v < x` iff `m < x` or `(m - x)*(m - x) < 9*v`); a NaN std
(`v = none`) compares false, as in pandas. -/
def loLt (m : ℚ) (v : Option ℚ) (x : ℚ) : Bool :=
  match v with
  | none => false
  | some v => decide (m < x ∨ (m - x) * (m - x) < 9 * v)

/-- The boolean of pandas `x < hi` where `hi = mean + 3*std`, encoded
like `loLt`. -/
def ltHi (m : ℚ) (v : Option ℚ) (x : ℚ) : Bool :=
  match v with
  | none => false
  | some v => decide (x < m ∨ (x - m) * (x - m) < 9 * v)

/-- First replacement pass of stage 3:
`df[feature].where(lo < df[feature], mean, inplace=True)` — keep the
value where the condition holds, else take the rolling mean. -/
def sigmaLoPass (xs mean : List ℚ) (var : List (Option ℚ)) : List ℚ :=
  (List.range xs.length).map fun i =>
    if loLt (mean.getD i 0) (var.getD i none) (xs.getD i 0) then xs.getD i 0
    else mean.getD i 0

/-- Second replacement pass of stage 3:
`df[feature].where(df[feature] < hi, mean, inplace=True)`, applied to
the column as updated by the first pass but against the same
originally computed `mean`/`std`. -/
def sigmaHiPass (xs mean : List ℚ) (var : List (Option ℚ)) : List ℚ :=
  (List.range xs.length).map fun i =>
    if ltHi (mean.getD i 0) (var.getD i none) (xs.getD i 0) then xs.getD i 0
    else mean.getD i 0

/-- Stage 3 of `remove_outliers` for one column: rolling mean and std
(window 100, centered, min_periods 1) computed once, `std[0] = 0`
forced, then the two sequential `where` passes.  On a zero-row column
the `std[0] = 0` enlargement makes `lo < df[feature]` compare two
differently-labelled series, which raises `ValueError` in pandas —
modelled by `Except.error`. -/
def stage3col (xs : List ℚ) : Except String (List ℚ) :=
  let mean := rollingMean 100 xs
  let var := forceStdZero (rollingVar 100 xs)
  if var.length = xs.length then
    Except.ok (sigmaHiPass (sigmaLoPass xs mean var) mean var)
  else
    Except.error "Can only compare identically-labeled Series objects"

/-- Stage 3 over all feature columns (the `time` column is held apart
in the model; the source skips it with `continue`). -/
def stage3cols : List (String × List ℚ) → Except String (List (String × List ℚ))
  | [] => Except.ok []
  | (n, xs) :: rest => do
    let ys ← stage3col xs
    let rest' ← stage3cols rest
    Except.ok ((n, ys) :: rest')

/-- `median_filtering`: every non-time column is replaced by its
centered rolling median (window 5, min_periods 1). -/
def median_filtering (df : DataFrame ℚ) : DataFrame ℚ :=
  { df with cols := df.cols.map fun p => (p.1, rollingMedian 5 p.2) }

/-- `np.clip(x, lo, hi)` = `np.minimum(np.maximum(x, lo), hi)`, written
with explicit comparisons. -/
def clip (lo hi x : ℚ) : ℚ :=
  let y := if x ≤ lo then lo else x
  if hi ≤ y then hi else y

/-- `ATTR_BOUNDS`, in source (dict-insertion) order.  The float literal
-0.001 is idealised as the exact rational -1/1000. -/
def ATTR_BOUNDS : List (String × ℚ × ℚ) :=
  [("relative humidity", 0, 1),
   ("shortwave", -1/1000, 1300),
   ("longwave", 50, 450),
   ("atmospheric pressure", 75000, 90000),
   ("air temp", -20, 70),
   ("wind speed", 0, 40),
   ("wind direction", 0, 360)]

/-- Stage 2: clip every bounded feature into `[lo, hi]`. -/
def clipStage (df : DataFrame ℚ) : DataFrame ℚ :=
  ATTR_BOUNDS.foldl
    (fun d p => { d with cols := mapCol d.cols p.1 (List.map (clip p.2.1 p.2.2)) }) df

/-- Stage 4 for one column: rolling mean (window 100, centered,
min_periods 1) computed once, then
`df[feature].where(df[feature] != hi, mean, inplace=True)` followed by
`df[feature].where(df[feature] != lo, mean, inplace=True)` on the
updated column. -/
def stage4col (lo hi : ℚ) (xs : List ℚ) : List ℚ :=
  let mean := rollingMean 100 xs
  let p1 := (List.range xs.length).map fun i =>
    if xs.getD i 0 ≠ hi then xs.getD i 0 else mean.getD i 0
  (List.range p1.length).map fun i =>
    if p1.getD i 0 ≠ lo then p1.getD i 0 else mean.getD i 0

/-- Stage 4 over the bounded features, skipping shortwave (`continue`). -/
def stage4 (df : DataFrame ℚ) : DataFrame ℚ :=
  ATTR_BOUNDS.foldl
    (fun d p =>
      if p.1 = "shortwave" then d
      else { d with cols := mapCol d.cols p.1 (stage4col p.2.1 p.2.2) }) df

/-- `remove_outliers`: median filter, hard clip, rolling 3-sigma
repair, bound-stuck repair, median filter — in source order. -/
def remove_outliers (df : DataFrame ℚ) : Except String (DataFrame ℚ) := do
  let df1 := median_filtering df
  let df2 := clipStage df1
  let cols3 ← stage3cols df2.cols
  let df3 : DataFrame ℚ := { df2 with cols := cols3 }
  let df4 := stage4 df3
  Except.ok (median_filtering df4)

/-! ### aws.py — vector decomposition and the full pipeline -/

/-- `np.sin(np.radians(dir)) * -1 * speed`. -/
noncomputable def windU (dir speed : ℝ) : ℝ :=
  Real.sin (dir * Real.pi / 180) * (-1) * speed

/-- `np.cos(np.radians(dir)) * -1 * speed`. -/
noncomputable def windV (dir speed : ℝ) : ℝ :=
  Real.cos (dir * Real.pi / 180) * (-1) * speed

/-- The decomposition block of `get_model_historical_data`: add
`wind u` and `wind v`, then drop `wind direction` and `wind speed`. -/
noncomputable def decompose (df : DataFrame ℝ) : DataFrame ℝ :=
  let speed := (getCol df.cols "wind speed").getD []
  let dir := (getCol df.cols "wind direction").getD []
  let cols1 := setColValue df.cols "wind u" (List.zipWith windU dir speed)
  let cols2 := setColValue cols1 "wind v" (List.zipWith windV dir speed)
  { df with cols := dropCol (dropCol cols2 "wind direction") "wind speed" }

/-- Cast the cleaned rational table to real values for the
trigonometric decomposition. -/
noncomputable def castDF (df : DataFrame ℚ) : DataFrame ℝ :=
  { time := df.time, cols := df.cols.map fun p => (p.1, p.2.map fun q => ((q : ℚ) : ℝ)) }

/-- `get_model_historical_data` after the two HTTP fetches (which are
external): build the historical map, trim NaN rows, sort by time,
clean, decompose.  The final defensive NaN re-trim is the identity
here: no real-valued cell of the model is NaN (the spec itself calls
it unreachable). -/
noncomputable def get_model_historical_data (buoy : List BuoySample) (uscg : List UscgSample) :
    Except String (DataFrame ℝ) := do
  let rows := buildHistorical buoy uscg
  let rows2 := trimNan rows
  let rows3 := sortByTime rows2
  let df ← remove_outliers (toDF rows3)
  Except.ok (decompose (castDF df))

/-- The table built by `get_model_historical_data` before cleaning: the
seven feature columns in source order. -/
def mkDF (time : List ℤ) (sw at' ap rh lw ws wd : List ℚ) : DataFrame ℚ :=
  { time := time
    cols := [("shortwave", sw), ("air temp", at'), ("atmospheric pressure", ap),
             ("relative humidity", rh), ("longwave", lw), ("wind speed", ws),
             ("wind direction", wd)] }

/-- Row/column shape agreement of two frames: same time column, same
column names, same column lengths. -/
def sameShape (a b : DataFrame ℚ) : Prop :=
  a.time = b.time ∧ a.cols.map (fun p => p.1) = b.cols.map (fun p => p.1) ∧
    a.cols.map (fun p => p.2.length) = b.cols.map (fun p => p.2.length)

/-- Decidable equality of `Except` values, used to evaluate the pipeline
on concrete tables. -/
def exceptDecEq {ε α : Type} [DecidableEq ε] [DecidableEq α] :
    DecidableEq (Except ε α)
  | Except.error e, Except.error f =>
    if h : e = f then Decidable.isTrue (by rw [h])
    else Decidable.isFalse fun hh => h (by injection hh)
  | Except.error _, Except.ok _ => Decidable.isFalse fun hh => Except.noConfusion hh
  | Except.ok _, Except.error _ => Decidable.isFalse fun hh => Except.noConfusion hh
  | Except.ok a, Except.ok b =>
    if h : a = b then Decidable.isTrue (by rw [h])
    else Decidable.isFalse fun hh => h (by injection hh)

instance {ε α : Type} [DecidableEq ε] [DecidableEq α] : DecidableEq (Except ε α) :=
  exceptDecEq

/-! ### Helper lemmas: the 3-sigma band over the reals -/

/-- The rolling mean that stage 3 uses at position `i`. -/
def stage3mean (xs : List ℚ) (i : Nat) : ℚ := (rollingMean 100 xs).getD i 0

/-- The (squared) rolling std that stage 3 uses at position `i`, after
the forced `std[0] = 0`. -/
def stage3var (xs : List ℚ) (i : Nat) : ℚ :=
  ((forceStdZero (rollingVar 100 xs)).getD i none).getD 0

/-! Helper lemmas about the duration fold and the splitters. -/

theorem contains_false_iff (l : List Char) (c : Char) : l.contains c = false ↔ c ∉ l := by
  simp [List.contains_eq_any_beq]

theorem foldl_durStep_digits (ds : List Char) (hds : ∀ c ∈ ds, c.isDigit) (h acc : Nat) :
    ds.foldl durStep (h, acc) = (h, ds.foldl (fun a c => 10 * a + (c.toNat - 48)) acc) := by
  induction ds generalizing acc with
  | nil => rfl
  | cons c cs ih =>
    have hc : c.isDigit := hds c (List.mem_cons_self c cs)
    have hcs : ∀ x ∈ cs, x.isDigit := fun x hx => hds x (List.mem_cons_of_mem c hx)
    simp only [List.foldl_cons, durStep, hc, if_true]
    exact ih hcs _

theorem foldl_durStep_decVal (ds : List Char) (hds : ∀ c ∈ ds, c.isDigit) (h : Nat) :
    ds.foldl durStep (h, 0) = (h, decVal ds) := by
  rw [foldl_durStep_digits ds hds h 0]; rfl

theorem durationHours_ptString (ds1 ds2 ds3 : List Char)
    (h1 : ∀ c ∈ ds1, c.isDigit) (h2 : ∀ c ∈ ds2, c.isDigit) (h3 : ∀ c ∈ ds3, c.isDigit) :
    durationHours (ptString ds1 ds2 ds3) = decVal ds1 + decVal ds2 / 60 + decVal ds3 / 360 := by
  have hPT : durStep (durStep (0, 0) 'P') 'T' = (0, 0) := by decide
  have hH : durStep (0, decVal ds1) 'H' = (decVal ds1, 0) := by
    unfold durStep
    rw [if_neg (by decide), if_pos rfl, Nat.zero_add]
  have hM : durStep (decVal ds1, decVal ds2) 'M' = (decVal ds1 + decVal ds2 / 60, 0) := by
    unfold durStep
    rw [if_neg (by decide), if_neg (by decide), if_pos rfl]
  have hS : durStep (decVal ds1 + decVal ds2 / 60, decVal ds3) 'S'
      = (decVal ds1 + decVal ds2 / 60 + decVal ds3 / 360, 0) := by
    unfold durStep
    rw [if_neg (by decide), if_neg (by decide), if_neg (by decide), if_pos rfl]
  unfold durationHours ptString
  rw [List.foldl_cons, List.foldl_cons, hPT, List.foldl_append,
    foldl_durStep_decVal ds1 h1, List.foldl_cons, hH, List.foldl_append,
    foldl_durStep_decVal ds2 h2, List.foldl_cons, hM, List.foldl_append,
    foldl_durStep_decVal ds3 h3, List.foldl_cons, hS, List.foldl_nil]

theorem splitOnChar_of_not_contains (c : Char) (l : List Char) (h : l.contains c = false) :
    splitOnChar c l = [l] := by
  induction l with
  | nil => rfl
  | cons a rest ih =>
    have hmem := (contains_false_iff _ _).mp h
    have ha : ¬ a = c := fun hac => hmem (hac ▸ List.mem_cons_self a rest)
    have hrest : rest.contains c = false :=
      (contains_false_iff _ _).mpr fun hm => hmem (List.mem_cons_of_mem a hm)
    rw [splitOnChar, if_neg ha, ih hrest]

theorem splitOnChar_sep (c : Char) (d l : List Char)
    (hd : d.contains c = false) (hl : l.contains c = false) :
    splitOnChar c (d ++ c :: l) = [d, l] := by
  induction d with
  | nil => simp [splitOnChar, splitOnChar_of_not_contains c l hl]
  | cons a rest ih =>
    have hmem := (contains_false_iff _ _).mp hd
    have ha : ¬ a = c := fun hac => hmem (hac ▸ List.mem_cons_self a rest)
    have hrest : rest.contains c = false :=
      (contains_false_iff _ _).mpr fun hm => hmem (List.mem_cons_of_mem a hm)
    have hrec : splitOnChar c (rest.append (c :: l)) = [rest, l] := ih hrest
    simp only [List.cons_append, splitOnChar, if_neg ha, hrec]

theorem containsDashDash_of_no_dash (l : List Char) (h : ∀ c ∈ l, c ≠ '-') :
    containsDashDash l = false := by
  induction l with
  | nil => rfl
  | cons a rest ih =>
    cases rest with
    | nil => rfl
    | cons b rest' =>
      have ha : a ≠ '-' := h a (List.mem_cons_self a _)
      have hrest : ∀ c ∈ b :: rest', c ≠ '-' := fun c hc => h c (List.mem_cons_of_mem a hc)
      rw [containsDashDash, ih hrest, Bool.or_false, Bool.and_eq_false_iff]
      exact Or.inl (decide_eq_false ha)

theorem splitOnDashDash_of_not_contains (l : List Char) (h : containsDashDash l = false) :
    splitOnDashDash l = [l] := by
  induction l with
  | nil => rfl
  | cons a rest ih =>
    cases rest with
    | nil => rfl
    | cons b rest' =>
      rw [containsDashDash, Bool.or_eq_false_iff] at h
      have hab : ¬ (a = '-' ∧ b = '-') := by
        intro ⟨ha, hb⟩
        rw [ha, hb] at h
        simp at h
      rw [splitOnDashDash, if_neg hab, ih h.2]

theorem getLast?_cons_cons (a b : α) (l : List α) :
    (a :: b :: l).getLast? = (b :: l).getLast? := by
  simp [List.getLast?]

theorem containsDashDash_append_sep (d l : List Char) :
    containsDashDash (d ++ '-' :: '-' :: l) = true := by
  induction d with
  | nil =>
    rw [List.nil_append, containsDashDash]
    simp
  | cons a rest ih =>
    cases hrest : rest ++ '-' :: '-' :: l with
    | nil => exact absurd hrest (by simp)
    | cons b rest' =>
      have he : (a :: rest) ++ '-' :: '-' :: l = a :: b :: rest' := by
        rw [List.cons_append, hrest]
      rw [he, containsDashDash, ← hrest, ih, Bool.or_true]

theorem splitOnDashDash_sep (d l : List Char)
    (hd : containsDashDash d = false) (hlast : d.getLast? ≠ some '-')
    (hl : containsDashDash l = false) :
    splitOnDashDash (d ++ '-' :: '-' :: l) = [d, l] := by
  induction d with
  | nil =>
    rw [List.nil_append, splitOnDashDash, if_pos ⟨rfl, rfl⟩,
      splitOnDashDash_of_not_contains l hl]
  | cons a rest ih =>
    cases rest with
    | nil =>
      have ha : a ≠ '-' := by
        intro h
        exact hlast (by simp [h])
      have hab : ¬ (a = '-' ∧ ('-' : Char) = '-') := fun h => ha h.1
      have htail : splitOnDashDash ('-' :: '-' :: l) = [[], l] := by
        rw [splitOnDashDash, if_pos ⟨rfl, rfl⟩, splitOnDashDash_of_not_contains l hl]
      show splitOnDashDash (a :: '-' :: '-' :: l) = [[a], l]
      rw [splitOnDashDash, if_neg hab, htail]
    | cons b rest' =>
      rw [containsDashDash, Bool.or_eq_false_iff] at hd
      have hab : ¬ (a = '-' ∧ b = '-') := by
        intro ⟨ha, hb⟩
        rw [ha, hb] at hd
        simp at hd
      have hlast' : (b :: rest').getLast? ≠ some '-' := by
        rw [getLast?_cons_cons] at hlast
        exact hlast
      have hrec := ih hd.2 hlast'
      rw [List.cons_append] at hrec
      show splitOnDashDash (a :: (b :: rest' ++ '-' :: '-' :: l)) = [a :: b :: rest', l]
      rw [List.cons_append, splitOnDashDash, if_neg hab, hrec]

theorem mem_ptString (c : Char) (ds1 ds2 ds3 : List Char) (hc : c ∈ ptString ds1 ds2 ds3) :
    c ∈ ds1 ∨ c ∈ ds2 ∨ c ∈ ds3 ∨ c = 'P' ∨ c = 'T' ∨ c = 'H' ∨ c = 'M' ∨ c = 'S' := by
  simp only [ptString, List.mem_cons, List.mem_append, List.mem_singleton] at hc
  tauto

theorem ptString_no_slash (ds1 ds2 ds3 : List Char)
    (h1 : ∀ c ∈ ds1, c.isDigit) (h2 : ∀ c ∈ ds2, c.isDigit) (h3 : ∀ c ∈ ds3, c.isDigit) :
    (ptString ds1 ds2 ds3).contains '/' = false := by
  rw [contains_false_iff]
  intro hc
  rcases mem_ptString _ _ _ _ hc with h | h | h | h | h | h | h | h
  · exact absurd (h1 _ h) (by decide)
  · exact absurd (h2 _ h) (by decide)
  · exact absurd (h3 _ h) (by decide)
  all_goals exact absurd h (by decide)

theorem ptString_no_dash (ds1 ds2 ds3 : List Char)
    (h1 : ∀ c ∈ ds1, c.isDigit) (h2 : ∀ c ∈ ds2, c.isDigit) (h3 : ∀ c ∈ ds3, c.isDigit) :
    ∀ c ∈ ptString ds1 ds2 ds3, c ≠ '-' := by
  intro c hc hceq
  subst hceq
  rcases mem_ptString _ _ _ _ hc with h | h | h | h | h | h | h | h
  · exact absurd (h1 _ h) (by decide)
  · exact absurd (h2 _ h) (by decide)
  · exact absurd (h3 _ h) (by decide)
  all_goals exact absurd h (by decide)

/-! ### Claim theorems for nws.py -/

/-- Claim C1, counterexample: a sample whose duration is 0 emits NO
reading at all — `range(0, 0)` is empty — not "exactly one reading at
T" as the claim states. -/
theorem C1_counterexample :
    expandSample 0 0 5 = [] ∧ (expandSample 0 0 5).length ≠ 1 := by
  constructor <;> decide

/-- Claim C1 (amended): for a sample with rounded start time T and
duration D, interval expansion emits exactly D readings, one at each of
T, T+1h, ..., T+(D−1)h, each carrying the sample's value; in
particular a sample whose duration is 0 emits no readings. -/
theorem C1_amended (t : ℤ) (d : Nat) (v : ℚ) :
    (expandSample t d v).length = d ∧
    (∀ i, i < d → (expandSample t d v)[i]? = some (t + i, v)) ∧
    (d = 0 → expandSample t d v = []) := by
  refine ⟨?_, fun i hi => ?_, fun hd => ?_⟩
  · rw [expandSample, List.length_map, List.length_range]
  · rw [expandSample, List.getElem?_map]
    simp [List.getElem?_range, hi]
  · subst hd; rfl

/-- Witness for C1: duration 4 starting at hour 2 emits four readings,
at hours 2, 3, 4, 5, each with the sample's value 5. -/
theorem C1_witness :
    (expandSample 2 4 5).length = 4 ∧ (expandSample 2 4 5)[2]? = some (4, 5) := by
  refine ⟨(C1_amended 2 4 5).1, ?_⟩
  have h := (C1_amended 2 4 5).2.1 2 (by decide)
  simpa using h

/-- Claim C2, evaluated at its failing inputs: rounding up from hour 23
raises `ValueError` (`replace(hour=24)` is rejected) instead of
returning the next hour boundary, and the microsecond field is NOT
zeroed — `replace` only overwrites hour, minute and second. -/
theorem C2_failing :
    round_to_nearest_hour ⟨2022, 2, 4, 23, 45, 0, 0⟩ = none ∧
    round_to_nearest_hour ⟨2022, 2, 4, 10, 7, 30, 123⟩ =
      some ⟨2022, 2, 4, 10, 0, 0, 123⟩ ∧
    (123 : Nat) ≠ 0 := by
  refine ⟨rfl, rfl, by decide⟩

/-- Claim C5: for an interval string with a `/` (or `--`) separator
followed by a duration `PT<n>H<n>M<n>S`, `parse_interval` returns the
sum of the H digits, plus the M digits floor-divided by 60, plus the S
digits floor-divided by 360, the digits of each group accumulated
left-to-right into an accumulator that resets after each unit letter;
an interval string with no separator yields duration 0. -/
theorem C5_thm :
    (∀ date ds1 ds2 ds3 : List Char,
      (∀ c ∈ ds1, c.isDigit) → (∀ c ∈ ds2, c.isDigit) → (∀ c ∈ ds3, c.isDigit) →
      date.contains '/' = false →
      parse_interval (date ++ '/' :: ptString ds1 ds2 ds3) =
        some (date, decVal ds1 + decVal ds2 / 60 + decVal ds3 / 360)) ∧
    (∀ date ds1 ds2 ds3 : List Char,
      (∀ c ∈ ds1, c.isDigit) → (∀ c ∈ ds2, c.isDigit) → (∀ c ∈ ds3, c.isDigit) →
      date.contains '/' = false → containsDashDash date = false →
      date.getLast? ≠ some '-' →
      parse_interval (date ++ '-' :: '-' :: ptString ds1 ds2 ds3) =
        some (date, decVal ds1 + decVal ds2 / 60 + decVal ds3 / 360)) ∧
    (∀ interval : List Char,
      interval.contains '/' = false → containsDashDash interval = false →
      parse_interval interval = some (interval, 0)) := by
  refine ⟨?_, ?_, ?_⟩
  · intro date ds1 ds2 ds3 h1 h2 h3 hdate
    have hsl : (date ++ '/' :: ptString ds1 ds2 ds3).contains '/' = true := by
      simp [List.contains_eq_any_beq]
    rw [parse_interval, if_pos hsl,
      splitOnChar_sep '/' date (ptString ds1 ds2 ds3) hdate
        (ptString_no_slash ds1 ds2 ds3 h1 h2 h3)]
    show some (date, durationHours (ptString ds1 ds2 ds3)) = _
    rw [durationHours_ptString ds1 ds2 ds3 h1 h2 h3]
  · intro date ds1 ds2 ds3 h1 h2 h3 hdate hdd hlast
    have hsl : (date ++ '-' :: '-' :: ptString ds1 ds2 ds3).contains '/' = false := by
      rw [contains_false_iff]
      intro hc
      rcases List.mem_append.mp hc with h | h
      · exact (contains_false_iff _ _).mp hdate h
      rcases List.mem_cons.mp h with h | h
      · exact absurd h (by decide)
      rcases List.mem_cons.mp h with h | h
      · exact absurd h (by decide)
      · exact (contains_false_iff _ _).mp (ptString_no_slash ds1 ds2 ds3 h1 h2 h3) h
    have hdd2 : containsDashDash (date ++ '-' :: '-' :: ptString ds1 ds2 ds3) = true :=
      containsDashDash_append_sep date (ptString ds1 ds2 ds3)
    rw [parse_interval, if_neg (fun h => absurd (hsl.symm.trans h) Bool.false_ne_true),
      if_pos hdd2,
      splitOnDashDash_sep date (ptString ds1 ds2 ds3) hdd hlast
        (containsDashDash_of_no_dash _ (ptString_no_dash ds1 ds2 ds3 h1 h2 h3))]
    show some (date, durationHours (ptString ds1 ds2 ds3)) = _
    rw [durationHours_ptString ds1 ds2 ds3 h1 h2 h3]
  · intro interval hsl hdd
    rw [parse_interval, if_neg (fun h => absurd (hsl.symm.trans h) Bool.false_ne_true),
      if_neg (fun h => absurd (hdd.symm.trans h) Bool.false_ne_true)]

/-- Witness for C5: `2022-02-04/PT4H0M0S` parses to duration 4 (the
unparsed date part is returned alongside). -/
theorem C5_witness :
    parse_interval
        (['2','0','2','2','-','0','2','-','0','4'] ++ '/' :: ptString ['4'] ['0'] ['0'])
      = some (['2','0','2','2','-','0','2','-','0','4'], 4) := by
  have h := C5_thm.1 ['2','0','2','2','-','0','2','-','0','4'] ['4'] ['0'] ['0']
    (by decide) (by decide) (by decide) (by decide)
  simpa using h

/-! ### Helper lemmas: gap trimming -/

theorem containsNat_false_iff (l : List Nat) (n : Nat) : l.contains n = false ↔ n ∉ l := by
  simp [List.contains_eq_any_beq]

theorem containsNat_true_iff (l : List Nat) (n : Nat) : l.contains n = true ↔ n ∈ l := by
  simp [List.contains_eq_any_beq]

theorem dropFlags_eq_filter {α : Type} (l : List α) (flag : α → Bool) (k : Nat) :
    ((List.enumFrom k l).filter fun p =>
        !((((List.enumFrom k (l.map flag)).filter fun q => q.2).map fun q => q.1).contains p.1)).map
      (fun p => p.2) = l.filter fun a => !flag a := by
  induction l generalizing k with
  | nil => rfl
  | cons a rest ih =>
    have hge : ∀ j ∈ (((List.enumFrom (k+1) (rest.map flag)).filter fun q => q.2).map
        fun q => q.1), k + 1 ≤ j := by
      intro j hj
      rcases List.mem_map.mp hj with ⟨q, hq, hqeq⟩
      exact hqeq ▸ List.le_fst_of_mem_enumFrom (List.mem_of_mem_filter hq)
    show ((((k, a) :: List.enumFrom (k+1) rest).filter fun p =>
        !(((((k, flag a) :: List.enumFrom (k+1) (rest.map flag)).filter fun q => q.2).map
          fun q => q.1).contains p.1)).map fun p => p.2) = List.filter _ (a :: rest)
    by_cases hf : flag a = true
    · have hinner : (((k, flag a) :: List.enumFrom (k+1) (rest.map flag)).filter fun q => q.2)
          = (k, flag a) :: ((List.enumFrom (k+1) (rest.map flag)).filter fun q => q.2) :=
        List.filter_cons_of_pos hf
      have hck : ((k :: ((List.enumFrom (k+1) (rest.map flag)).filter fun q => q.2).map
          (fun q => q.1)).contains k) = true :=
        (containsNat_true_iff _ _).mpr (List.mem_cons_self _ _)
      have hcong : ∀ p ∈ List.enumFrom (k+1) rest,
          (!((k :: ((List.enumFrom (k+1) (rest.map flag)).filter fun q => q.2).map
            (fun q => q.1)).contains p.1))
          = (!((((List.enumFrom (k+1) (rest.map flag)).filter fun q => q.2).map
            (fun q => q.1)).contains p.1)) := by
        intro p hp
        have h1 : k + 1 ≤ p.1 := List.le_fst_of_mem_enumFrom hp
        have hne : (p.1 == k) = false := beq_eq_false_iff_ne.mpr (by omega)
        rw [List.contains_cons, hne, Bool.false_or]
      simp only [hinner, List.map_cons, List.filter_cons, hck, Bool.not_true]
      simp only [Bool.false_eq_true, if_false]
      rw [List.filter_congr hcong, ih (k+1)]
      simp [hf]
    · have hf' : flag a = false := by
        cases h : flag a
        · rfl
        · exact absurd h hf
      have hinner : (((k, flag a) :: List.enumFrom (k+1) (rest.map flag)).filter fun q => q.2)
          = ((List.enumFrom (k+1) (rest.map flag)).filter fun q => q.2) :=
        List.filter_cons_of_neg (by simp [hf'])
      have hnotk : ((((List.enumFrom (k+1) (rest.map flag)).filter
          fun q => q.2).map fun q => q.1).contains k) = false := by
        rw [containsNat_false_iff]
        intro hk
        have := hge k hk
        omega
      simp only [hinner, List.filter_cons, hnotk, Bool.not_false]
      simp only [if_true, List.map_cons]
      rw [ih (k+1)]
      simp [hf']

/-! ### Helper lemmas: the historical map -/

theorem upsert_lookup_ex (hist : List (ℤ × Row)) (t : ℤ) (f : Row → Row) (P : Row → Prop)
    (hP : ∀ p ∈ hist, P p.2) (hPe : P emptyRow) :
    ∃ r0, P r0 ∧ (upsert hist t f).lookup t = some (f r0) := by
  induction hist with
  | nil => exact ⟨emptyRow, hPe, by simp [upsert, List.lookup]⟩
  | cons q rest ih =>
    obtain ⟨t', r⟩ := q
    by_cases ht : t' = t
    · subst ht
      refine ⟨r, hP (t', r) (List.mem_cons_self _ _), ?_⟩
      rw [upsert, if_pos rfl]
      simp [List.lookup]
    · obtain ⟨r0, hr0, hl⟩ := ih fun q hq => hP q (List.mem_cons_of_mem _ hq)
      refine ⟨r0, hr0, ?_⟩
      rw [upsert, if_neg ht]
      have hbeq : (t == t') = false := beq_eq_false_iff_ne.mpr fun h => ht h.symm
      simp [List.lookup, hbeq, hl]

theorem upsert_len (hist : List (ℤ × Row)) (t : ℤ) (f : Row → Row) (n : Nat)
    (hh : ∀ p ∈ hist, p.2.length = n) (hf : ∀ r : Row, r.length = n → (f r).length = n)
    (he : emptyRow.length = n) :
    ∀ p ∈ upsert hist t f, p.2.length = n := by
  induction hist with
  | nil =>
    intro p hp
    rw [upsert] at hp
    rcases List.mem_singleton.mp hp with rfl
    exact hf _ he
  | cons q rest ih =>
    obtain ⟨t', r⟩ := q
    by_cases ht : t' = t
    · subst ht
      rw [upsert, if_pos rfl]
      intro p hp
      rcases List.mem_cons.mp hp with rfl | hp
      · exact hf _ (hh (t', r) (List.mem_cons_self _ _))
      · exact hh p (List.mem_cons_of_mem _ hp)
    · rw [upsert, if_neg ht]
      intro p hp
      rcases List.mem_cons.mp hp with rfl | hp
      · exact hh _ (List.mem_cons_self _ _)
      · exact ih (fun q hq => hh q (List.mem_cons_of_mem _ hq)) p hp

theorem setFeature_len (r : Row) (name : String) (v : ℚ) :
    (setFeature r name v).length = r.length := by
  simp [setFeature]

theorem applyBuoy_len (hist : List (ℤ × Row)) (s : BuoySample)
    (hh : ∀ p ∈ hist, p.2.length = features.length) :
    ∀ p ∈ applyBuoy hist s, p.2.length = features.length := by
  refine upsert_len hist s.tmStamp _ features.length hh (fun r hr => ?_) (by decide)
  simp [setFeature_len, hr]

theorem applyUscg_len (hist : List (ℤ × Row)) (s : UscgSample)
    (hh : ∀ p ∈ hist, p.2.length = features.length) :
    ∀ p ∈ applyUscg hist s, p.2.length = features.length := by
  refine upsert_len hist s.tmStamp _ features.length hh (fun r hr => ?_) (by decide)
  simp [setFeature_len, hr]

theorem foldl_applyBuoy_len (samples : List BuoySample) (hist : List (ℤ × Row))
    (hh : ∀ p ∈ hist, p.2.length = features.length) :
    ∀ p ∈ samples.foldl applyBuoy hist, p.2.length = features.length := by
  induction samples generalizing hist with
  | nil => exact hh
  | cons s rest ih => exact ih (applyBuoy hist s) (applyBuoy_len hist s hh)

theorem foldl_applyUscg_len (samples : List UscgSample) (hist : List (ℤ × Row))
    (hh : ∀ p ∈ hist, p.2.length = features.length) :
    ∀ p ∈ samples.foldl applyUscg hist, p.2.length = features.length := by
  induction samples generalizing hist with
  | nil => exact hh
  | cons s rest ih => exact ih (applyUscg hist s) (applyUscg_len hist s hh)

/-! ### Claim theorems: C6, C8, C9 -/

/-- Claim C6: gap trimming removes exactly the rows with at least one
absent cell — it equals a filter keeping the fully populated rows
unchanged; hence no cell of the output is absent, and every fully
populated input row is retained. -/
theorem C6_thm (rows : List (ℤ × Row)) :
    trimNan rows = rows.filter (fun p => !hasNan p.2) ∧
    (∀ p ∈ trimNan rows, hasNan p.2 = false) ∧
    (∀ p ∈ rows, hasNan p.2 = false → p ∈ trimNan rows) := by
  have h1 : trimNan rows = rows.filter fun p => !hasNan p.2 :=
    dropFlags_eq_filter rows (fun p => hasNan p.2) 0
  refine ⟨h1, fun p hp => ?_, fun p hp hnan => ?_⟩
  · rw [h1] at hp
    have := (List.mem_filter.mp hp).2
    simpa using this
  · rw [h1]
    exact List.mem_filter.mpr ⟨hp, by simp [hnan]⟩

/-- Witness for C6: a fully populated row survives the trim, and it has
no absent cell; the all-absent row is dropped. -/
theorem C6_witness :
    ((0 : ℤ), List.replicate 7 (some (1 : ℚ))) ∈
      trimNan [((0 : ℤ), List.replicate 7 (some (1 : ℚ))), (1, emptyRow)] ∧
    hasNan (List.replicate 7 (some (1 : ℚ))) = false := by
  refine ⟨(C6_thm _).2.2 _ (by decide) (by decide), by decide⟩

/-- Claim C8: when a logical feature (air temperature, wind speed, wind
direction) is reported by two sensors in the same buoy sample, the row
stored at that timestamp holds the arithmetic mean of the two raw
values; and every row of the historical map has the full feature
width. -/
theorem getD_set_self (l : Row) (i : Nat) (v : Option ℚ) (h : i < l.length) :
    (l.set i v).getD i none = v := by
  rw [List.getD_eq_getElem?_getD, List.getElem?_set_self', List.getElem?_eq_getElem h]
  rfl

theorem getD_set_ne (l : Row) (i j : Nat) (v : Option ℚ) (h : i ≠ j) :
    (l.set i v).getD j none = l.getD j none := by
  rw [List.getD_eq_getElem?_getD, List.getElem?_set_ne h, ← List.getD_eq_getElem?_getD]

theorem C8_thm :
    (∀ (hist : List (ℤ × Row)) (s : BuoySample),
      (∀ p ∈ hist, p.2.length = features.length) →
      ∃ r : Row, (applyBuoy hist s).lookup s.tmStamp = some r ∧
        r.getD (features.indexOf "air temp") none = some ((s.airTemp1 + s.airTemp2) / 2) ∧
        r.getD (features.indexOf "wind speed") none = some ((s.windSpeed1 + s.windSpeed2) / 2) ∧
        r.getD (features.indexOf "wind direction") none = some ((s.windDir1 + s.windDir2) / 2)) ∧
    (∀ (buoy : List BuoySample) (uscg : List UscgSample),
      ∀ p ∈ buildHistorical buoy uscg, p.2.length = features.length) := by
  constructor
  · intro hist s hh
    obtain ⟨r0, hlen, hl⟩ := upsert_lookup_ex hist s.tmStamp _
      (fun r => r.length = features.length) hh (by decide)
    refine ⟨_, hl, ?_, ?_, ?_⟩
    · have hat : features.indexOf "air temp" = 1 := by decide
      have hws : features.indexOf "wind speed" = 5 := by decide
      have hwd : features.indexOf "wind direction" = 6 := by decide
      simp only [setFeature, hat, hws, hwd]
      rw [getD_set_ne _ _ _ _ (by omega), getD_set_ne _ _ _ _ (by omega),
        getD_set_self _ _ _ (by rw [hlen]; decide)]
    · have hat : features.indexOf "air temp" = 1 := by decide
      have hws : features.indexOf "wind speed" = 5 := by decide
      have hwd : features.indexOf "wind direction" = 6 := by decide
      simp only [setFeature, hat, hws, hwd]
      rw [getD_set_ne _ _ _ _ (by omega),
        getD_set_self _ _ _ (by rw [List.length_set, hlen]; decide)]
    · have hat : features.indexOf "air temp" = 1 := by decide
      have hws : features.indexOf "wind speed" = 5 := by decide
      have hwd : features.indexOf "wind direction" = 6 := by decide
      simp only [setFeature, hat, hws, hwd]
      rw [getD_set_self _ _ _ (by rw [List.length_set, List.length_set, hlen]; decide)]
  · intro buoy uscg
    exact foldl_applyUscg_len uscg _ (foldl_applyBuoy_len buoy [] (by simp))

/-- Witness for C8: raw air-temperature readings 10 and 20 from the two
sensors of one sample merge to exactly 15. -/
theorem C8_witness :
    ∃ r : Row, (applyBuoy [] ⟨0, 10, 20, 0, 0, 0, 0⟩).lookup 0 = some r ∧
      r.getD (features.indexOf "air temp") none = some 15 := by
  obtain ⟨r, hl, ha, _, _⟩ := C8_thm.1 [] ⟨0, 10, 20, 0, 0, 0, 0⟩ (by simp)
  refine ⟨r, hl, ?_⟩
  rw [ha]
  norm_num

/-- Claim C9, evaluated at the failing input: on EMPTY input (zero
samples from both sources) the pipeline does NOT return an empty table
— stage 3's forced `std[0] = 0` enlarges the empty std series to
length 1, and the subsequent band comparison of two
differently-labelled series raises `ValueError`. -/
theorem C9_failing :
    get_model_historical_data [] [] =
      Except.error "Can only compare identically-labeled Series objects" := rfl

/-! ### Helper lemmas: columns and rolling windows -/

theorem getD_map_range (f : Nat → ℚ) (n i : Nat) (h : i < n) (d : ℚ) :
    ((List.range n).map f).getD i d = f i := by
  rw [List.getD_eq_getElem?_getD, List.getElem?_map]
  simp [List.getElem?_range, h]

theorem stage4col_getD (lo hi : ℚ) (xs : List ℚ) (i : Nat) (h : i < xs.length) :
    (stage4col lo hi xs).getD i 0 =
      if xs.getD i 0 = hi ∨ xs.getD i 0 = lo then (rollingMean 100 xs).getD i 0
      else xs.getD i 0 := by
  simp only [stage4col]
  have hlen : ((List.range xs.length).map fun j =>
      if xs.getD j 0 ≠ hi then xs.getD j 0 else (rollingMean 100 xs).getD j 0).length
      = xs.length := by rw [List.length_map, List.length_range]
  rw [hlen, getD_map_range _ _ _ h, getD_map_range _ _ _ h]
  split_ifs <;> first | rfl | tauto

/-! ### Claim theorem: C4 -/

/-- Claim C4: in stage 4 every feature except shortwave has each value
exactly equal to its declared lower or upper bound replaced by the
column's centered rolling mean (window 100, min 1) and every other
value kept, while the shortwave column passes through stage 4 entirely
unchanged. -/
theorem C4_thm (time : List ℤ) (sw at' ap rh lw ws wd : List ℚ) :
    getCol (stage4 (mkDF time sw at' ap rh lw ws wd)).cols "shortwave" = some sw ∧
    getCol (stage4 (mkDF time sw at' ap rh lw ws wd)).cols "air temp"
      = some (stage4col (-20) 70 at') ∧
    getCol (stage4 (mkDF time sw at' ap rh lw ws wd)).cols "atmospheric pressure"
      = some (stage4col 75000 90000 ap) ∧
    getCol (stage4 (mkDF time sw at' ap rh lw ws wd)).cols "relative humidity"
      = some (stage4col 0 1 rh) ∧
    getCol (stage4 (mkDF time sw at' ap rh lw ws wd)).cols "longwave"
      = some (stage4col 50 450 lw) ∧
    getCol (stage4 (mkDF time sw at' ap rh lw ws wd)).cols "wind speed"
      = some (stage4col 0 40 ws) ∧
    getCol (stage4 (mkDF time sw at' ap rh lw ws wd)).cols "wind direction"
      = some (stage4col 0 360 wd) ∧
    (∀ (lo hi : ℚ) (xs : List ℚ) (i : Nat), i < xs.length →
      ((xs.getD i 0 = lo ∨ xs.getD i 0 = hi) →
        (stage4col lo hi xs).getD i 0 = (rollingMean 100 xs).getD i 0) ∧
      (xs.getD i 0 ≠ lo ∧ xs.getD i 0 ≠ hi →
        (stage4col lo hi xs).getD i 0 = xs.getD i 0)) := by
  refine ⟨rfl, rfl, rfl, rfl, rfl, rfl, rfl, fun lo hi xs i h => ⟨fun hb => ?_, fun hnb => ?_⟩⟩
  · rw [stage4col_getD lo hi xs i h, if_pos (Or.symm hb)]
  · rw [stage4col_getD lo hi xs i h, if_neg ?_]
    intro hc
    rcases hc with hc | hc
    · exact hnb.2 hc
    · exact hnb.1 hc

/-- Witness for C4: a shortwave column sitting exactly at its lower
bound is left unchanged by stage 4, while an air-temperature value
pinned at its lower bound −20 is replaced by the local rolling mean. -/
theorem C4_witness :
    getCol (stage4 (mkDF [] [-1/1000, -1/1000] [] [] [] [] [] [])).cols "shortwave"
      = some [-1/1000, -1/1000] ∧
    (stage4col (-20) 70 [-20]).getD 0 0 = (rollingMean 100 [-20]).getD 0 0 := by
  refine ⟨(C4_thm [] [-1/1000, -1/1000] [] [] [] [] [] []).1, ?_⟩
  exact ((C4_thm [] [] [] [] [] [] [] []).2.2.2.2.2.2.2 (-20) 70 [-20] 0 (by decide)).1
    (Or.inl (by decide))

/-! ### Helper lemmas: column insertion and removal -/

theorem getCol_overwrite {α : Type} (cols : List (String × List α)) (n : String) (v : List α)
    (h : cols.any (fun p => p.1 = n) = true) :
    getCol (cols.map fun p => if p.1 = n then (p.1, v) else p) n = some v := by
  induction cols with
  | nil => simp at h
  | cons p rest ih =>
    by_cases hp : p.1 = n
    · rw [List.map_cons, if_pos hp, getCol, if_pos hp]
    · have hrest : rest.any (fun p => p.1 = n) = true := by
        rcases List.any_eq_true.mp h with ⟨q, hq, hq2⟩
        rcases List.mem_cons.mp hq with rfl | hq
        · exact absurd (by simpa using hq2) hp
        · exact List.any_eq_true.mpr ⟨q, hq, hq2⟩
      rw [List.map_cons, if_neg hp, getCol, if_neg hp]
      exact ih hrest

theorem getCol_append_new {α : Type} (cols : List (String × List α)) (n : String) (v : List α)
    (h : cols.any (fun p => p.1 = n) = false) :
    getCol (cols ++ [(n, v)]) n = some v := by
  induction cols with
  | nil => simp [getCol]
  | cons p rest ih =>
    rw [List.any_cons, Bool.or_eq_false_iff] at h
    have hp : ¬ p.1 = n := by simpa using h.1
    rw [List.cons_append, getCol, if_neg hp]
    exact ih h.2

theorem getCol_setColValue_self {α : Type} (cols : List (String × List α)) (n : String)
    (v : List α) : getCol (setColValue cols n v) n = some v := by
  unfold setColValue
  by_cases h : cols.any (fun p => p.1 = n) = true
  · rw [if_pos h]
    exact getCol_overwrite cols n v h
  · have h' : cols.any (fun p => p.1 = n) = false := by
      cases hx : cols.any (fun p => p.1 = n)
      · rfl
      · exact absurd hx h
    rw [if_neg h]
    exact getCol_append_new cols n v h'

theorem getCol_overwrite_ne {α : Type} (cols : List (String × List α)) (n m : String)
    (v : List α) (hm : m ≠ n) :
    getCol (cols.map fun p => if p.1 = n then (p.1, v) else p) m = getCol cols m := by
  induction cols with
  | nil => rfl
  | cons p rest ih =>
    by_cases hp : p.1 = n
    · have hpm : ¬ p.1 = m := fun he => hm (he.symm.trans hp)
      rw [List.map_cons, if_pos hp, getCol, getCol, if_neg hpm, if_neg hpm]
      exact ih
    · rw [List.map_cons, if_neg hp, getCol, getCol]
      by_cases hpm : p.1 = m
      · rw [if_pos hpm, if_pos hpm]
      · rw [if_neg hpm, if_neg hpm]
        exact ih

theorem getCol_setColValue_ne {α : Type} (cols : List (String × List α)) (n m : String)
    (v : List α) (hm : m ≠ n) : getCol (setColValue cols n v) m = getCol cols m := by
  unfold setColValue
  by_cases h : cols.any (fun p => p.1 = n) = true
  · rw [if_pos h]
    exact getCol_overwrite_ne cols n m v hm
  · rw [if_neg h]
    induction cols with
    | nil =>
      rw [List.nil_append, getCol, getCol]
      have : ¬ (n = m) := fun he => hm he.symm
      simp [getCol, this]
    | cons p rest ih =>
      rw [List.cons_append, getCol, getCol]
      by_cases hpm : p.1 = m
      · rw [if_pos hpm, if_pos hpm]
      · rw [if_neg hpm, if_neg hpm]
        exact ih (by intro hx; exact h (by rw [List.any_cons, hx]; simp))

theorem getCol_dropCol_self {α : Type} (cols : List (String × List α)) (n : String) :
    getCol (dropCol cols n) n = none := by
  induction cols with
  | nil => rfl
  | cons p rest ih =>
    unfold dropCol at *
    by_cases hp : p.1 = n
    · rw [List.filter_cons_of_neg (by simp [hp])]
      exact ih
    · rw [List.filter_cons_of_pos (by simp [hp]), getCol, if_neg hp]
      exact ih

theorem getCol_dropCol_ne {α : Type} (cols : List (String × List α)) (n m : String)
    (hm : m ≠ n) : getCol (dropCol cols n) m = getCol cols m := by
  induction cols with
  | nil => rfl
  | cons p rest ih =>
    unfold dropCol at *
    by_cases hp : p.1 = n
    · rw [List.filter_cons_of_neg (by simp [hp])]
      have hpm : ¬ p.1 = m := fun he => hm (he.symm.trans hp)
      rw [getCol, if_neg hpm]
      exact ih
    · rw [List.filter_cons_of_pos (by simp [hp]), getCol, getCol]
      by_cases hpm : p.1 = m
      · rw [if_pos hpm, if_pos hpm]
      · rw [if_neg hpm, if_neg hpm]
        exact ih

/-! ### Claim theorem: C7 -/

/-- Claim C7: decomposition computes, per row, u = −speed·sin(direction
in radians) and v = −speed·cos(direction in radians); speed 10 from
0° gives (u, v) = (0, −10) and from 90° gives (−10, 0); and the
original wind-speed and wind-direction columns are dropped from the
output table while the new `wind u`/`wind v` columns hold the
componentwise decomposition of the input columns. -/
theorem C7_thm :
    (∀ dir speed : ℝ,
      windU dir speed = -speed * Real.sin (dir * Real.pi / 180) ∧
      windV dir speed = -speed * Real.cos (dir * Real.pi / 180)) ∧
    (windU 0 10 = 0 ∧ windV 0 10 = -10 ∧ windU 90 10 = -10 ∧ windV 90 10 = 0) ∧
    (∀ df : DataFrame ℝ,
      getCol (decompose df).cols "wind speed" = none ∧
      getCol (decompose df).cols "wind direction" = none ∧
      getCol (decompose df).cols "wind u" =
        some (List.zipWith windU ((getCol df.cols "wind direction").getD [])
          ((getCol df.cols "wind speed").getD [])) ∧
      getCol (decompose df).cols "wind v" =
        some (List.zipWith windV ((getCol df.cols "wind direction").getD [])
          ((getCol df.cols "wind speed").getD []))) := by
  have h90s : Real.sin ((90 : ℝ) * Real.pi / 180) = 1 := by
    have : (90 : ℝ) * Real.pi / 180 = Real.pi / 2 := by ring
    rw [this, Real.sin_pi_div_two]
  have h90c : Real.cos ((90 : ℝ) * Real.pi / 180) = 0 := by
    have : (90 : ℝ) * Real.pi / 180 = Real.pi / 2 := by ring
    rw [this, Real.cos_pi_div_two]
  refine ⟨fun dir speed => ⟨by rw [windU]; ring, by rw [windV]; ring⟩, ⟨?_, ?_, ?_, ?_⟩, ?_⟩
  · rw [windU]
    norm_num
  · rw [windV]
    norm_num
  · rw [windU, h90s]
    norm_num
  · rw [windV, h90c]
    norm_num
  · intro df
    refine ⟨?_, ?_, ?_, ?_⟩
    · exact getCol_dropCol_self _ _
    · rw [decompose]
      rw [getCol_dropCol_ne _ _ _ (by decide)]
      exact getCol_dropCol_self _ _
    · rw [decompose]
      rw [getCol_dropCol_ne _ _ _ (by decide), getCol_dropCol_ne _ _ _ (by decide),
        getCol_setColValue_ne _ _ _ _ (by decide)]
      exact getCol_setColValue_self _ _ _
    · rw [decompose]
      rw [getCol_dropCol_ne _ _ _ (by decide), getCol_dropCol_ne _ _ _ (by decide)]
      exact getCol_setColValue_self _ _ _

/-! ### Helper lemmas: shape preservation of the cleaning stages -/

theorem length_rollingApply {β : Type} (g : List ℚ → β) (w : Nat) (xs : List ℚ) :
    (rollingApply g w xs).length = xs.length := by
  rw [rollingApply, List.length_map, List.length_range]

theorem length_sigmaLoPass (xs mean : List ℚ) (var : List (Option ℚ)) :
    (sigmaLoPass xs mean var).length = xs.length := by
  rw [sigmaLoPass, List.length_map, List.length_range]

theorem length_sigmaHiPass (xs mean : List ℚ) (var : List (Option ℚ)) :
    (sigmaHiPass xs mean var).length = xs.length := by
  rw [sigmaHiPass, List.length_map, List.length_range]

theorem length_stage4col (lo hi : ℚ) (xs : List ℚ) :
    (stage4col lo hi xs).length = xs.length := by
  simp only [stage4col]
  rw [List.length_map, List.length_range, List.length_map, List.length_range]

theorem sameShape_refl (a : DataFrame ℚ) : sameShape a a := ⟨rfl, rfl, rfl⟩

theorem sameShape_trans {a b c : DataFrame ℚ} (h1 : sameShape a b) (h2 : sameShape b c) :
    sameShape a c :=
  ⟨h1.1.trans h2.1, h1.2.1.trans h2.2.1, h1.2.2.trans h2.2.2⟩

theorem mapCol_shape (df : DataFrame ℚ) (n : String) (f : List ℚ → List ℚ)
    (hf : ∀ xs, (f xs).length = xs.length) :
    sameShape { df with cols := mapCol df.cols n f } df := by
  refine ⟨rfl, ?_, ?_⟩
  · show (mapCol df.cols n f).map (fun p => p.1) = df.cols.map (fun p => p.1)
    unfold mapCol
    rw [List.map_map]
    apply List.map_congr_left
    intro p hp
    by_cases hc : p.1 = n <;> simp [hc]
  · show (mapCol df.cols n f).map (fun p => p.2.length) = df.cols.map (fun p => p.2.length)
    unfold mapCol
    rw [List.map_map]
    apply List.map_congr_left
    intro p hp
    by_cases hc : p.1 = n <;> simp [hc, hf]

theorem median_filtering_shape (df : DataFrame ℚ) : sameShape (median_filtering df) df := by
  refine ⟨rfl, ?_, ?_⟩
  · show (df.cols.map fun p => (p.1, rollingMedian 5 p.2)).map (fun p => p.1)
      = df.cols.map (fun p => p.1)
    rw [List.map_map]
    apply List.map_congr_left
    intro p hp
    simp
  · show (df.cols.map fun p => (p.1, rollingMedian 5 p.2)).map (fun p => p.2.length)
      = df.cols.map (fun p => p.2.length)
    rw [List.map_map]
    apply List.map_congr_left
    intro p hp
    simp [rollingMedian, length_rollingApply]

theorem foldl_shape {γ : Type} (bs : List γ) (df : DataFrame ℚ)
    (step : DataFrame ℚ → γ → DataFrame ℚ)
    (hstep : ∀ d p, sameShape (step d p) d) :
    sameShape (bs.foldl step df) df := by
  induction bs generalizing df with
  | nil => exact sameShape_refl df
  | cons b rest ih => exact sameShape_trans (ih (step df b)) (hstep df b)

theorem clipStage_shape (df : DataFrame ℚ) : sameShape (clipStage df) df :=
  foldl_shape ATTR_BOUNDS df _ fun d p =>
    mapCol_shape d p.1 (List.map (clip p.2.1 p.2.2)) fun xs => List.length_map xs _

theorem stage4_shape (df : DataFrame ℚ) : sameShape (stage4 df) df := by
  refine foldl_shape ATTR_BOUNDS df _ fun d p => ?_
  by_cases hp : p.1 = "shortwave"
  · rw [if_pos hp]
    exact sameShape_refl d
  · rw [if_neg hp]
    exact mapCol_shape d p.1 (stage4col p.2.1 p.2.2) fun xs => length_stage4col _ _ xs

theorem stage3col_ok_len (xs ys : List ℚ) (h : stage3col xs = Except.ok ys) :
    ys.length = xs.length := by
  simp only [stage3col] at h
  split at h
  · injection h with h
    subst h
    rw [length_sigmaHiPass, length_sigmaLoPass]
  · exact Except.noConfusion h

theorem stage3cols_shape (cols : List (String × List ℚ)) :
    ∀ cols', stage3cols cols = Except.ok cols' →
      cols'.map (fun p => p.1) = cols.map (fun p => p.1) ∧
      cols'.map (fun p => p.2.length) = cols.map (fun p => p.2.length) := by
  induction cols with
  | nil =>
    intro cols' h
    rw [stage3cols] at h
    injection h with h
    subst h
    exact ⟨rfl, rfl⟩
  | cons p rest ih =>
    intro cols' h
    obtain ⟨n, xs⟩ := p
    rw [stage3cols] at h
    cases hys : stage3col xs with
    | error e =>
      rw [hys] at h
      exact Except.noConfusion h
    | ok ys =>
      rw [hys] at h
      cases hrest : stage3cols rest with
      | error e =>
        rw [hrest] at h
        exact Except.noConfusion h
      | ok rest' =>
        rw [hrest] at h
        have h' : Except.ok ((n, ys) :: rest') = Except.ok cols' := h
        injection h' with h'
        subst h'
        obtain ⟨ih1, ih2⟩ := ih rest' hrest
        constructor
        · rw [List.map_cons, List.map_cons, ih1]
        · rw [List.map_cons, List.map_cons, ih2]
          show (ys.length :: _) = (xs.length :: _)
          rw [stage3col_ok_len xs ys hys]

/-! ### Claim theorem: C10 -/

/-- Claim C10: whenever `remove_outliers` completes, the `time` column
is unchanged and the number and order of rows is preserved — every
stage only replaces values inside feature columns: the output has the
same column names with the same column lengths (on the empty table the
function instead raises, see the C9 analysis). -/
theorem C10_thm (df out : DataFrame ℚ) (h : remove_outliers df = Except.ok out) :
    out.time = df.time ∧
    out.cols.map (fun p => p.1) = df.cols.map (fun p => p.1) ∧
    out.cols.map (fun p => p.2.length) = df.cols.map (fun p => p.2.length) := by
  simp only [remove_outliers] at h
  cases hs3 : stage3cols (clipStage (median_filtering df)).cols with
  | error e =>
    rw [hs3] at h
    exact Except.noConfusion h
  | ok cols3 =>
    rw [hs3] at h
    have h' : Except.ok (median_filtering (stage4
        { clipStage (median_filtering df) with cols := cols3 })) = Except.ok out := h
    injection h' with h'
    subst h'
    have s1 := median_filtering_shape df
    have s2 := clipStage_shape (median_filtering df)
    have s3 := stage3cols_shape (clipStage (median_filtering df)).cols cols3 hs3
    have s4 := stage4_shape ({ clipStage (median_filtering df) with cols := cols3 })
    have s5 := median_filtering_shape
      (stage4 { clipStage (median_filtering df) with cols := cols3 })
    refine ⟨?_, ?_, ?_⟩
    · exact s5.1.trans (s4.1.trans (s2.1.trans s1.1))
    · exact s5.2.1.trans (s4.2.1.trans (s3.1.trans (s2.2.1.trans s1.2.1)))
    · exact s5.2.2.trans (s4.2.2.trans (s3.2.trans (s2.2.2.trans s1.2.2)))

theorem forceStdZero_rollingVar_length (xs : List ℚ) (h : xs ≠ []) :
    (forceStdZero (rollingVar 100 xs)).length = xs.length := by
  cases hv : rollingVar 100 xs with
  | nil =>
    have hlen : (rollingApply varQ 100 xs).length = xs.length := length_rollingApply varQ 100 xs
    have hv' : rollingApply varQ 100 xs = [] := hv
    rw [hv'] at hlen
    cases xs with
    | nil => exact absurd rfl h
    | cons a t => simp at hlen
  | cons a t =>
    have hlen : (rollingApply varQ 100 xs).length = xs.length := length_rollingApply varQ 100 xs
    have hv' : rollingApply varQ 100 xs = a :: t := hv
    rw [hv'] at hlen
    rw [show forceStdZero (a :: t) = (a :: t).set 0 (some 0) from rfl, List.length_set]
    exact hlen

theorem stage3col_ok_ex (xs : List ℚ) (h : xs ≠ []) : ∃ ys, stage3col xs = Except.ok ys :=
  ⟨sigmaHiPass (sigmaLoPass xs (rollingMean 100 xs) (forceStdZero (rollingVar 100 xs)))
      (rollingMean 100 xs) (forceStdZero (rollingVar 100 xs)), by
    simp only [stage3col]
    rw [if_pos (forceStdZero_rollingVar_length xs h)]⟩

theorem stage3cols_ok_ex (cols : List (String × List ℚ)) (h : ∀ p ∈ cols, p.2 ≠ []) :
    ∃ cols', stage3cols cols = Except.ok cols' := by
  induction cols with
  | nil => exact ⟨[], rfl⟩
  | cons p rest ih =>
    obtain ⟨n, xs⟩ := p
    obtain ⟨ys, hys⟩ := stage3col_ok_ex xs (h (n, xs) (List.mem_cons_self _ _))
    obtain ⟨rest', hrest⟩ := ih fun q hq => h q (List.mem_cons_of_mem _ hq)
    refine ⟨(n, ys) :: rest', ?_⟩
    rw [stage3cols, hys]
    show Except.bind (stage3cols rest) _ = _
    rw [hrest]
    rfl

theorem nonempty_transfer (cols' cols : List (String × List ℚ))
    (hmap : cols'.map (fun p => p.2.length) = cols.map (fun p => p.2.length))
    (hne : ∀ p ∈ cols, p.2 ≠ []) : ∀ p ∈ cols', p.2 ≠ [] := by
  induction cols' generalizing cols with
  | nil => intro p hp; exact absurd hp (List.not_mem_nil p)
  | cons q rest ih =>
    cases cols with
    | nil => simp at hmap
    | cons q0 rest0 =>
      rw [List.map_cons, List.map_cons] at hmap
      injection hmap with h1 h2
      intro p hp
      rcases List.mem_cons.mp hp with rfl | hp
      · intro hnil
        have hq0 := hne q0 (List.mem_cons_self _ _)
        rw [hnil] at h1
        simp only [List.length_nil] at h1
        exact hq0 (List.eq_nil_of_length_eq_zero h1.symm)
      · exact ih rest0 h2 (fun r hr => hne r (List.mem_cons_of_mem _ hr)) p hp

theorem remove_outliers_ok (df : DataFrame ℚ) (h : ∀ p ∈ df.cols, p.2 ≠ []) :
    ∃ out, remove_outliers df = Except.ok out := by
  have h1 : ∀ p ∈ (median_filtering df).cols, p.2 ≠ [] :=
    nonempty_transfer _ _ (median_filtering_shape df).2.2 h
  have h2 : ∀ p ∈ (clipStage (median_filtering df)).cols, p.2 ≠ [] :=
    nonempty_transfer _ _ (clipStage_shape (median_filtering df)).2.2 h1
  obtain ⟨cols', hcols⟩ := stage3cols_ok_ex _ h2
  refine ⟨median_filtering (stage4 { clipStage (median_filtering df) with cols := cols' }), ?_⟩
  simp only [remove_outliers]
  rw [hcols]
  rfl

/-- Witness for C10: on a concrete one-row seven-column table the
cleaner completes, and the time column, column names and column
lengths of its output all match the input. -/
theorem C10_witness :
    ∃ out, remove_outliers (mkDF [0] [0] [0] [0] [0] [0] [0] [0]) = Except.ok out ∧
      out.time = (mkDF [0] [0] [0] [0] [0] [0] [0] [0]).time ∧
      out.cols.map (fun p => p.1)
        = (mkDF [0] [0] [0] [0] [0] [0] [0] [0]).cols.map (fun p => p.1) ∧
      out.cols.map (fun p => p.2.length)
        = (mkDF [0] [0] [0] [0] [0] [0] [0] [0]).cols.map (fun p => p.2.length) := by
  obtain ⟨out, hout⟩ :=
    remove_outliers_ok (mkDF [0] [0] [0] [0] [0] [0] [0] [0]) (by decide)
  exact ⟨out, hout, C10_thm _ out hout⟩

theorem getD_map_range_gen {β : Type} (f : Nat → β) (n i : Nat) (h : i < n) (d : β) :
    ((List.range n).map f).getD i d = f i := by
  rw [List.getD_eq_getElem?_getD, List.getElem?_map]
  simp [List.getElem?_range, h]

theorem getD_cons_succ_gen {β : Type} (a : β) (l : List β) (n : Nat) (d : β) :
    (a :: l).getD (n + 1) d = l.getD n d := rfl

theorem two_le_window100_length (xs : List ℚ) (i : Nat) (h1 : 1 ≤ i) (h2 : i < xs.length) :
    2 ≤ (window 100 xs i).length := by
  simp only [window, List.length_take, List.length_drop]
  omega

theorem varQ_eq_some (l : List ℚ) (h : 2 ≤ l.length) :
    varQ l = some ((l.map fun x => (x - meanQ l) * (x - meanQ l)).sum / ((l.length : ℚ) - 1)) := by
  unfold varQ
  rw [if_neg (by omega)]

theorem varQ_nonneg (l : List ℚ) (v : ℚ) (h : varQ l = some v) : 0 ≤ v := by
  unfold varQ at h
  by_cases hl : l.length ≤ 1
  · rw [if_pos hl] at h
    exact Option.noConfusion h
  · rw [if_neg hl] at h
    injection h with h
    subst h
    apply div_nonneg
    · apply List.sum_nonneg
      intro x hx
      rcases List.mem_map.mp hx with ⟨y, hy, rfl⟩
      exact mul_self_nonneg _
    · have h2 : 2 ≤ l.length := by omega
      have h2' : (2 : ℚ) ≤ (l.length : ℚ) := by exact_mod_cast h2
      linarith

theorem stage3var_zero (xs : List ℚ) : stage3var xs 0 = 0 := by
  unfold stage3var
  cases hv : rollingVar 100 xs with
  | nil => rfl
  | cons a t => rfl

theorem stage3var_some (xs : List ℚ) (i : Nat) (h : i < xs.length) :
    (forceStdZero (rollingVar 100 xs)).getD i none = some (stage3var xs i) ∧
      0 ≤ stage3var xs i := by
  cases hv : rollingVar 100 xs with
  | nil =>
    have hlen : (rollingApply varQ 100 xs).length = xs.length := length_rollingApply varQ 100 xs
    have hv' : rollingApply varQ 100 xs = [] := hv
    rw [hv'] at hlen
    simp only [List.length_nil] at hlen
    omega
  | cons a t =>
    have hfs : forceStdZero (a :: t) = some 0 :: t := rfl
    unfold stage3var
    rw [hv, hfs]
    cases i with
    | zero => simp
    | succ j =>
      rw [getD_cons_succ_gen]
      have hval : t.getD j none = varQ (window 100 xs (j + 1)) := by
        have hmr := getD_map_range_gen (fun k => varQ (window 100 xs k)) xs.length (j + 1) h none
        have hrv : (List.range xs.length).map (fun k => varQ (window 100 xs k))
            = rollingVar 100 xs := rfl
        rw [hrv, hv] at hmr
        rw [← hmr]
        rfl
      rw [hval]
      have h2 : 2 ≤ (window 100 xs (j + 1)).length :=
        two_le_window100_length xs (j + 1) (by omega) h
      rw [varQ_eq_some _ h2]
      exact ⟨rfl, varQ_nonneg _ _ (varQ_eq_some _ h2)⟩

theorem loLt_iff (m x v : ℚ) (hv : 0 ≤ v) :
    loLt m (some v) x = true ↔ (m : ℝ) - 3 * Real.sqrt (v : ℝ) < (x : ℝ) := by
  show (decide (m < x ∨ (m - x) * (m - x) < 9 * v) = true) ↔ _
  rw [decide_eq_true_eq]
  have hs0 : (0 : ℝ) ≤ Real.sqrt (v : ℝ) := Real.sqrt_nonneg _
  have hs2 : Real.sqrt (v : ℝ) * Real.sqrt (v : ℝ) = (v : ℝ) :=
    Real.mul_self_sqrt (by exact_mod_cast hv)
  constructor
  · rintro (h | h)
    · have h' : (m : ℝ) < x := by exact_mod_cast h
      nlinarith
    · have h' : ((m : ℝ) - x) * ((m : ℝ) - x) < 9 * (v : ℝ) := by exact_mod_cast h
      nlinarith
  · intro h
    by_cases hmx : m < x
    · exact Or.inl hmx
    · have hxm : (x : ℝ) ≤ (m : ℝ) := by exact_mod_cast not_lt.mp hmx
      refine Or.inr ?_
      have hgoal : ((m : ℝ) - x) * ((m : ℝ) - x) < 9 * (v : ℝ) := by nlinarith
      exact_mod_cast hgoal

theorem ltHi_iff (m x v : ℚ) (hv : 0 ≤ v) :
    ltHi m (some v) x = true ↔ (x : ℝ) < (m : ℝ) + 3 * Real.sqrt (v : ℝ) := by
  show (decide (x < m ∨ (x - m) * (x - m) < 9 * v) = true) ↔ _
  rw [decide_eq_true_eq]
  have hs0 : (0 : ℝ) ≤ Real.sqrt (v : ℝ) := Real.sqrt_nonneg _
  have hs2 : Real.sqrt (v : ℝ) * Real.sqrt (v : ℝ) = (v : ℝ) :=
    Real.mul_self_sqrt (by exact_mod_cast hv)
  constructor
  · rintro (h | h)
    · have h' : (x : ℝ) < m := by exact_mod_cast h
      nlinarith
    · have h' : ((x : ℝ) - m) * ((x : ℝ) - m) < 9 * (v : ℝ) := by exact_mod_cast h
      nlinarith
  · intro h
    by_cases hxm : x < m
    · exact Or.inl hxm
    · have hmx : (m : ℝ) ≤ (x : ℝ) := by exact_mod_cast not_lt.mp hxm
      refine Or.inr ?_
      have hgoal : ((x : ℝ) - m) * ((x : ℝ) - m) < 9 * (v : ℝ) := by nlinarith
      exact_mod_cast hgoal

theorem sigmaLoPass_getD (xs mean : List ℚ) (var : List (Option ℚ)) (i : Nat)
    (h : i < xs.length) :
    (sigmaLoPass xs mean var).getD i 0 =
      if loLt (mean.getD i 0) (var.getD i none) (xs.getD i 0) then xs.getD i 0
      else mean.getD i 0 :=
  getD_map_range_gen _ _ _ h _

theorem sigmaHiPass_getD (xs mean : List ℚ) (var : List (Option ℚ)) (i : Nat)
    (h : i < xs.length) :
    (sigmaHiPass xs mean var).getD i 0 =
      if ltHi (mean.getD i 0) (var.getD i none) (xs.getD i 0) then xs.getD i 0
      else mean.getD i 0 :=
  getD_map_range_gen _ _ _ h _

/-! ### Claim theorem: C3 -/

/-- Claim C3: stage 3 computes a centered rolling mean and std (window
100, min 1) once, forces the first sample's std to 0, and — in two
sequential passes (lower band, then upper band) both against those
same originally computed statistics — replaces every value falling
outside [mean − 3σ, mean + 3σ] with the local rolling mean while
keeping every value strictly inside the band. -/
theorem C3_thm (xs : List ℚ) (i : Nat) (hi : i < xs.length) :
    ∃ ys, stage3col xs = Except.ok ys ∧ ys.length = xs.length ∧ stage3var xs 0 = 0 ∧
      (((xs.getD i 0 : ℝ) < (stage3mean xs i : ℝ) - 3 * Real.sqrt (stage3var xs i) ∨
          (stage3mean xs i : ℝ) + 3 * Real.sqrt (stage3var xs i) < (xs.getD i 0 : ℝ)) →
        ys.getD i 0 = stage3mean xs i) ∧
      ((stage3mean xs i : ℝ) - 3 * Real.sqrt (stage3var xs i) < (xs.getD i 0 : ℝ) ∧
          (xs.getD i 0 : ℝ) < (stage3mean xs i : ℝ) + 3 * Real.sqrt (stage3var xs i) →
        ys.getD i 0 = xs.getD i 0) := by
  have hne : xs ≠ [] := by
    intro h0
    rw [h0] at hi
    simp at hi
  have hflen := forceStdZero_rollingVar_length xs hne
  obtain ⟨hv, hv0⟩ := stage3var_some xs i hi
  have hm : (rollingMean 100 xs).getD i 0 = stage3mean xs i := rfl
  have hp1d := sigmaLoPass_getD xs (rollingMean 100 xs) (forceStdZero (rollingVar 100 xs)) i hi
  have hiP : i < (sigmaLoPass xs (rollingMean 100 xs) (forceStdZero (rollingVar 100 xs))).length := by
    rw [length_sigmaLoPass]
    exact hi
  have hysd := sigmaHiPass_getD (sigmaLoPass xs (rollingMean 100 xs)
    (forceStdZero (rollingVar 100 xs))) (rollingMean 100 xs)
    (forceStdZero (rollingVar 100 xs)) i hiP
  refine ⟨sigmaHiPass (sigmaLoPass xs (rollingMean 100 xs) (forceStdZero (rollingVar 100 xs)))
      (rollingMean 100 xs) (forceStdZero (rollingVar 100 xs)), ?_, ?_, stage3var_zero xs,
      ?_, ?_⟩
  · simp only [stage3col]
    rw [if_pos hflen]
  · rw [length_sigmaHiPass, length_sigmaLoPass]
  · intro hout
    rcases hout with hlow | hhigh
    · have hloF : loLt ((rollingMean 100 xs).getD i 0)
          ((forceStdZero (rollingVar 100 xs)).getD i none) (xs.getD i 0) = false := by
        rw [hm, hv]
        cases hb : loLt (stage3mean xs i) (some (stage3var xs i)) (xs.getD i 0)
        · rfl
        · have := (loLt_iff (stage3mean xs i) (xs.getD i 0) (stage3var xs i) hv0).mp hb
          linarith
      rw [hysd, hp1d, hloF]
      simp only [Bool.false_eq_true, if_false]
      rw [hm, hv]
      cases hb2 : ltHi (stage3mean xs i) (some (stage3var xs i)) (stage3mean xs i) <;> simp
    · have hs0 : (0 : ℝ) ≤ Real.sqrt (stage3var xs i : ℝ) := Real.sqrt_nonneg _
      have hloT : loLt ((rollingMean 100 xs).getD i 0)
          ((forceStdZero (rollingVar 100 xs)).getD i none) (xs.getD i 0) = true := by
        rw [hm, hv]
        exact (loLt_iff (stage3mean xs i) (xs.getD i 0) (stage3var xs i) hv0).mpr (by linarith)
      have hhiF : ltHi ((rollingMean 100 xs).getD i 0)
          ((forceStdZero (rollingVar 100 xs)).getD i none) (xs.getD i 0) = false := by
        rw [hm, hv]
        cases hb : ltHi (stage3mean xs i) (some (stage3var xs i)) (xs.getD i 0)
        · rfl
        · have := (ltHi_iff (stage3mean xs i) (xs.getD i 0) (stage3var xs i) hv0).mp hb
          linarith
      rw [hysd, hp1d, hloT]
      simp only [eq_self_iff_true, if_true]
      rw [hhiF]
      simp only [Bool.false_eq_true, if_false]
      exact hm
  · intro hin
    have hloT : loLt ((rollingMean 100 xs).getD i 0)
        ((forceStdZero (rollingVar 100 xs)).getD i none) (xs.getD i 0) = true := by
      rw [hm, hv]
      exact (loLt_iff (stage3mean xs i) (xs.getD i 0) (stage3var xs i) hv0).mpr hin.1
    have hhiT : ltHi ((rollingMean 100 xs).getD i 0)
        ((forceStdZero (rollingVar 100 xs)).getD i none) (xs.getD i 0) = true := by
      rw [hm, hv]
      exact (ltHi_iff (stage3mean xs i) (xs.getD i 0) (stage3var xs i) hv0).mpr hin.2
    rw [hysd, hp1d, hloT]
    simp only [eq_self_iff_true, if_true]
    rw [hhiT]
    simp only [eq_self_iff_true, if_true]

/-- Witness for C3: stage 3 succeeds on the one-sample column [5]; its
first (and only) position has forced σ = 0 and the sample sits exactly
on the band boundary, so the strict inside/outside premises are
vacuous or keep the value. -/
theorem C3_witness :
    ∃ ys, stage3col [(5 : ℚ)] = Except.ok ys ∧ ys.length = [(5 : ℚ)].length ∧
      stage3var [(5 : ℚ)] 0 = 0 ∧
      ((([(5 : ℚ)].getD 0 0 : ℝ) <
          (stage3mean [(5 : ℚ)] 0 : ℝ) - 3 * Real.sqrt (stage3var [(5 : ℚ)] 0) ∨
          (stage3mean [(5 : ℚ)] 0 : ℝ) + 3 * Real.sqrt (stage3var [(5 : ℚ)] 0) <
            ([(5 : ℚ)].getD 0 0 : ℝ)) →
        ys.getD 0 0 = stage3mean [(5 : ℚ)] 0) ∧
      ((stage3mean [(5 : ℚ)] 0 : ℝ) - 3 * Real.sqrt (stage3var [(5 : ℚ)] 0) <
          ([(5 : ℚ)].getD 0 0 : ℝ) ∧
          ([(5 : ℚ)].getD 0 0 : ℝ) <
            (stage3mean [(5 : ℚ)] 0 : ℝ) + 3 * Real.sqrt (stage3var [(5 : ℚ)] 0) →
        ys.getD 0 0 = [(5 : ℚ)].getD 0 0) :=
  C3_thm [(5 : ℚ)] 0 (by decide)

end LTHWS
